import Mathlib

/-!
Verification development for the s3tar lifecycle coordinator.

The repository consists of five Python scripts:
* `generate.py` — the Importer: classifies raw object paths and inserts
  them into the SQLite catalog (table `s3_paths`) with insert-or-ignore
  semantics on the unique `path` column.
* `archivev2.py` — the staged coordinator: selects destination groups
  from the catalog, validates them, materializes a CSV manifest, invokes
  the external `s3tar` archiver, and deletes source objects in batches.
* `s3tar.py` — a scan-based coordinator over live S3 listings.
* `delete.py` — the standalone bulk deleter with a batch checkpoint.
* `generate-files.py` — a CSV pre-filter sharing the classifier logic.

Strings are modelled as Lean `String`s; the character-level helpers below
operate on `List Char` (`String.data`) and reproduce the exact semantics of
the Python string operations used by the sources (`str.replace`,
`str.split`, `re.search` with the concrete date pattern, slicing).
SQLite rows are modelled as a Lean structure, the table as a list of rows
in insertion order.  Remote effects (S3 listing/head/delete, the external
archiver process) are modelled at their interface: the set of keys in the
bucket is a list of strings, and the success of an external invocation is
an oracle parameter.
-/

/-- Python `needle in hay` check for a list prefix: `ps` is a prefix of `l`. -/
def startsWithChars : List Char → List Char → Bool
  | [], _ => true
  | _ :: _, [] => false
  | p :: ps, c :: cs => p = c && startsWithChars ps cs

/-- Python `needle in hay` substring containment on character lists. -/
def containsSub (needle : List Char) : List Char → Bool
  | [] => startsWithChars needle []
  | c :: rest => startsWithChars needle (c :: rest) || containsSub needle rest

/-- Python `s.split(sep)` for a single-character separator: splits at every
occurrence and keeps empty pieces, so the result is always nonempty. -/
def splitOnCharList (sep : Char) : List Char → List (List Char)
  | [] => [[]]
  | c :: rest =>
    match splitOnCharList sep rest with
    | [] => if c = sep then [[], []] else [[c]]
    | s :: ss => if c = sep then [] :: s :: ss else (c :: s) :: ss

/-- Python `s.replace(".tar", "")`: removes every (non-overlapping,
left-to-right) occurrence of `.tar`. -/
def stripTarAll : List Char → List Char
  | '.' :: 't' :: 'a' :: 'r' :: rest => stripTarAll rest
  | c :: rest => c :: stripTarAll rest
  | [] => []

/-- Python `s.replace("%3D", "=")` (generate.py `normalize_path`,
delete.py `fix_paths`): rewrites every occurrence of `%3D` to `=`,
scanning left to right. -/
def replace3D : List Char → List Char
  | [] => []
  | [c] => [c]
  | [c, d] => [c, d]
  | c :: d :: e :: rest =>
    if c = '%' ∧ d = '3' ∧ e = 'D' then '=' :: replace3D rest
    else c :: replace3D (d :: e :: rest)

/-- Whether the character list contains an occurrence of `%3D`. -/
def hasPat : List Char → Bool
  | [] => false
  | [_] => false
  | [_, _] => false
  | c :: d :: e :: rest =>
    (decide (c = '%' ∧ d = '3' ∧ e = 'D')) || hasPat (d :: e :: rest)

/-- Strip an exact literal from the front of the input, or fail. -/
def stripLit : List Char → List Char → Option (List Char)
  | [], l => some l
  | _ :: _, [] => none
  | p :: ps, c :: cs => if p = c then stripLit ps cs else none

/-- The `(?:%3D|=)` alternative of the date regex: consume either the
escaped or the literal equals sign. -/
def stripSep (l : List Char) : Option (List Char) :=
  match stripLit ('%' :: '3' :: 'D' :: []) l with
  | some r => some r
  | none => stripLit ('=' :: []) l

/-- Greedily take the leading run of decimal digits (the `(\d+)` group). -/
def takeDigits : List Char → List Char × List Char
  | [] => ([], [])
  | c :: rest =>
    if c.isDigit then (c :: (takeDigits rest).1, (takeDigits rest).2)
    else ([], c :: rest)

/-- `(\d+)`: one or more digits, greedy, returning the digit group and the
remaining input. -/
def digitsGroup (l : List Char) : Option (List Char × List Char) :=
  if (takeDigits l).1.isEmpty then none else some (takeDigits l)

/-- Attempt to match the date pattern
`year(?:%3D|=)(\d+)/month(?:%3D|=)(\d+)/day(?:%3D|=)(\d+)` starting at the
head of the input, returning the three digit groups. -/
def matchDateAt (l : List Char) : Option (String × String × String) := do
  let l1 ← stripLit ('y' :: 'e' :: 'a' :: 'r' :: []) l
  let l2 ← stripSep l1
  let (ys, l3) ← digitsGroup l2
  let l4 ← stripLit ('/' :: 'm' :: 'o' :: 'n' :: 't' :: 'h' :: []) l3
  let l5 ← stripSep l4
  let (ms, l6) ← digitsGroup l5
  let l7 ← stripLit ('/' :: 'd' :: 'a' :: 'y' :: []) l6
  let l8 ← stripSep l7
  let (ds, _) ← digitsGroup l8
  pure (⟨ys⟩, ⟨ms⟩, ⟨ds⟩)

/-- `re.search` over the date pattern: try the match at every position from
the left and return the first success. -/
def findDate (l : List Char) : Option (String × String × String) :=
  match matchDateAt l with
  | some r => some r
  | none =>
    match l with
    | [] => none
    | _ :: rest => findDate rest

/-- `filepath[filepath.find(needle):]` — the suffix starting at the first
occurrence of the needle, or `none` when `find` returns `-1`. -/
def suffixFrom (needle : List Char) : List Char → Option (List Char)
  | [] => if startsWithChars needle [] then some [] else none
  | c :: rest =>
    if startsWithChars needle (c :: rest) then some (c :: rest)
    else suffixFrom needle rest

/-- Index of the first path segment that starts with `year%3D` or `year=`
(the loop of `extract_origin`). -/
def findYearIdx : List (List Char) → Option Nat
  | [] => none
  | part :: rest =>
    if startsWithChars ('y' :: 'e' :: 'a' :: 'r' :: '%' :: '3' :: 'D' :: []) part
        || startsWithChars ('y' :: 'e' :: 'a' :: 'r' :: '=' :: []) part then
      some 0
    else
      match findYearIdx rest with
      | some i => some (i + 1)
      | none => none

/-- Accumulate the value of a decimal digit run; fails on any non-digit. -/
def digitsVal : Nat → List Char → Option Nat
  | acc, [] => some acc
  | acc, c :: rest =>
    if c.isDigit then digitsVal (acc * 10 + (c.toNat - 48)) rest else none

/-- Python `int(s)` restricted to the shapes that occur here: an optional
minus sign followed by one or more digits; anything else (for instance the
sentinel `unknown`) raises `ValueError`. -/
def pyInt (s : String) : Except String Int :=
  match s.data with
  | [] => Except.error ("ValueError: invalid literal for int with base 10: " ++ s)
  | '-' :: c :: ds =>
    match digitsVal 0 (c :: ds) with
    | some n => Except.ok (-(n : Int))
    | none => Except.error ("ValueError: invalid literal for int with base 10: " ++ s)
  | l =>
    match digitsVal 0 l with
    | some n => Except.ok ((n : Int))
    | none => Except.error ("ValueError: invalid literal for int with base 10: " ++ s)

/-! ## generate.py — the Importer (Path Classifier + idempotent insert) -/

/-- `normalize_path` (generate.py line 93): replace `%3D` with `=`. -/
def normalize_path (filepath : String) : String := ⟨replace3D filepath.data⟩

/-- `extract_date_parts` (generate.py lines 97-105): `re.search` for
`year(?:%3D|=)(\d+)/month(?:%3D|=)(\d+)/day(?:%3D|=)(\d+)`; on a match the
three digit groups, otherwise the sentinel `unknown` for every component. -/
def extract_date_parts (filepath : String) : String × String × String :=
  match findDate filepath.data with
  | some r => r
  | none => ("unknown", "unknown", "unknown")

/-- `extract_origin` (generate.py lines 108-119): take the suffix starting
at the first `raw/`, split it on `/`, find the first segment starting with
`year%3D` or `year=`; when its index `i` exceeds 1 the origin is the first
`i - 1` segments rejoined with `/`, otherwise (or when nothing matches)
the sentinel `unknown`. -/
def extract_origin (filepath : String) : String :=
  match suffixFrom ('r' :: 'a' :: 'w' :: '/' :: []) filepath.data with
  | none => "unknown"
  | some suf =>
    let parts := splitOnCharList '/' suf
    match findYearIdx parts with
    | some i => if 1 < i then ⟨List.intercalate ('/' :: []) (parts.take (i - 1))⟩
                else "unknown"
    | none => "unknown"

/-- One row of the catalog table `s3_paths` as archivev2.py reads it.
`generate.py`'s `SQLITE_SCHEMA` omits the `ignored` column that
archivev2.py queries and updates; the row carries it (default false) as
the spec's catalog schema prescribes.  `year`/`month`/`day` are stored as
the strings the Importer binds (regex digit groups or `unknown`). -/
structure CatRow where
  path : String
  year : String
  month : String
  day : String
  origin : String
  bucket : String
  archived : Bool
  deleted : Bool
  destination_path : String
  size : Int
  date : String
  ignored : Bool
deriving DecidableEq

/-- The catalog: the `s3_paths` table in rowid (insertion) order. -/
abbrev Catalog := List CatRow

/-- An input row of the inventory CSV consumed by `process_s3_csv`:
column 0 bucket, column 1 path, column 2 size, column 3 date. -/
structure InputRow where
  bucket : String
  path : String
  size : Int
  date : String
deriving DecidableEq

/-- The catalog row built for one input row (generate.py lines 137-171):
normalized path, classified date parts and origin, destination key
`archive/<origin>/<y>-<m>-<d>.tar`, flags 0. -/
def rowToCatRow (r : InputRow) : CatRow :=
  let normalized := normalize_path r.path
  let dp := extract_date_parts normalized
  let origin := extract_origin normalized
  let destination :=
    "archive/" ++ origin ++ "/" ++ dp.1 ++ "-" ++ dp.2.1 ++ "-" ++ dp.2.2 ++ ".tar"
  ⟨normalized, dp.1, dp.2.1, dp.2.2, origin, r.bucket, false, false,
    destination, r.size, r.date, false⟩

/-- Integrity errors the SQLite insert can raise. -/
inductive SqliteError where
  | uniqueConstraintFailedPath
  | otherIntegrityError (msg : String)
deriving DecidableEq

/-- The raw `INSERT INTO s3_paths ...` (generate.py lines 156-171): fails
with a uniqueness violation when a row with the same `path` already
exists, otherwise appends the row. -/
def tryInsert (cat : Catalog) (r : CatRow) : Except SqliteError Catalog :=
  if cat.any (fun q => q.path = r.path) then
    Except.error SqliteError.uniqueConstraintFailedPath
  else Except.ok (cat ++ [r])

/-- The insert wrapped in the handler of generate.py lines 173-177: a
`UNIQUE constraint failed` error is silently absorbed (`continue`), any
other integrity error is re-raised. -/
def insertHandled (cat : Catalog) (r : InputRow) : Except SqliteError Catalog :=
  match tryInsert cat (rowToCatRow r) with
  | Except.ok c => Except.ok c
  | Except.error SqliteError.uniqueConstraintFailedPath => Except.ok cat
  | Except.error e => Except.error e

/-- `process_s3_csv` (generate.py lines 122-178): classify and insert every
input row in order. -/
def process_s3_csv (rows : List InputRow) (cat : Catalog) :
    Except SqliteError Catalog :=
  rows.foldlM insertHandled cat

/-- The pure effect of one handled insert (never errors). -/
def insertPure (cat : Catalog) (r : InputRow) : Catalog :=
  if cat.any (fun q => q.path = (rowToCatRow r).path) then cat
  else cat ++ [rowToCatRow r]

deriving instance DecidableEq for Except

/-! ## archivev2.py — the staged coordinator

Time is modelled as an `Int` number of seconds on the proleptic Gregorian
timeline used by Python `datetime`: `datetime(y, m, d)` is
`toordinal y m d * 86400` and `datetime.now()` is a parameter `now`.
`timedelta.days` is the floored quotient by 86400 (`Int.fdiv`).  The set of
keys present in the S3 bucket is a `List String`, and the exit status of
the external `s3tar` process is an oracle `String → Bool` indexed by the
destination. -/

/-- Days in the proleptic Gregorian calendar before January 1 of year `y`. -/
def daysBeforeYear (y : Int) : Int :=
  365 * (y - 1) + (y - 1).fdiv 4 - (y - 1).fdiv 100 + (y - 1).fdiv 400

/-- Gregorian leap-year test. -/
def isLeap (y : Int) : Bool := (y % 4 = 0 ∧ y % 100 ≠ 0) ∨ y % 400 = 0

/-- Days in year `y` before the first of month `m` (1-based). -/
def daysBeforeMonth (y m : Int) : Int :=
  let base := [0, 31, 59, 90, 120, 151, 181, 212, 243, 273, 304, 334]
  let idx := (m - 1).toNat
  (base.getD idx 0 : Int) + (if 2 < m ∧ isLeap y then 1 else 0)

/-- Python `datetime(y, m, d).toordinal()`. -/
def toordinal (y m d : Int) : Int := daysBeforeYear y + daysBeforeMonth y m + d

/-- `datetime(y, m, d)` as seconds on the timeline. -/
def datetimeSec (y m d : Int) : Int := toordinal y m d * 86400

/-- `calculate_day_difference` (archivev2.py lines 221-222):
`(datetime.now() - datetime(year, month, day)).days`, with
`timedelta.days` flooring toward minus infinity. -/
def calculate_day_difference (now y m d : Int) : Int :=
  (now - datetimeSec y m d).fdiv 86400

/-- Drop leading whitespace characters (half of Python `str.strip()`). -/
def dropLeadingWs : List Char → List Char
  | [] => []
  | c :: rest => if c.isWhitespace then dropLeadingWs rest else c :: rest

/-- Python `str.strip()`: drop whitespace from both ends. -/
def trimChars (l : List Char) : List Char :=
  (dropLeadingWs (dropLeadingWs l).reverse).reverse

/-- `clean_string` (archivev2.py lines 200-201): strip surrounding
whitespace and remove every double quote. -/
def clean_string (s : String) : String :=
  ⟨(trimChars s.data).filter (fun c => c ≠ '"')⟩

/-- The configuration flags of archivev2.py that the model consults. -/
structure Config where
  bucket : String
  delete : Bool
  dry_run : Bool
  deep_archive : Bool
  archive : Bool
  limit : Nat
deriving DecidableEq

/-- A Python value reaching `validate_destination_path`: `process_archive`
passes the string `dst_path[0]`, while `process_delete` passes the whole
fetched row `dst_path`, a 1-tuple. -/
inductive PyVal where
  | str : String → PyVal
  | tup : List String → PyVal
deriving DecidableEq

/-- Mark `ignored = 1` on every row whose `destination_path` equals `dst`
(the `UPDATE s3_paths SET ignored = 1 WHERE destination_path = ?`). -/
def setIgnored (cat : Catalog) (dst : String) : Catalog :=
  cat.map (fun r =>
    if r.destination_path = dst then
      ⟨r.path, r.year, r.month, r.day, r.origin, r.bucket, r.archived,
        r.deleted, r.destination_path, r.size, r.date, true⟩
    else r)

/-- Mark `archived = 1` on every row of the destination group. -/
def setArchived (cat : Catalog) (dst : String) : Catalog :=
  cat.map (fun r =>
    if r.destination_path = dst then
      ⟨r.path, r.year, r.month, r.day, r.origin, r.bucket, true,
        r.deleted, r.destination_path, r.size, r.date, r.ignored⟩
    else r)

/-- Mark `deleted = 1` on every row of the destination group. -/
def setDeleted (cat : Catalog) (dst : String) : Catalog :=
  cat.map (fun r =>
    if r.destination_path = dst then
      ⟨r.path, r.year, r.month, r.day, r.origin, r.bucket, r.archived,
        true, r.destination_path, r.size, r.date, r.ignored⟩
    else r)

/-- `validate_destination_path` (archivev2.py lines 251-267).  Its first
statement is `destination_path.split("/")`; when `process_delete` hands it
the fetched 1-tuple instead of the string, that attribute access raises
`AttributeError`.  On a string: parse the date from the last path segment
(Python `int` raising `ValueError` on unparsable components), then ignore
the group when the path lacks `raw`, the day is 1, or the day difference
is not greater than 90; returns the updated catalog and the verdict. -/
def validate_destination_path (now : Int) (cat : Catalog) (dstv : PyVal) :
    Except String (Catalog × Bool) :=
  match dstv with
  | PyVal.tup _ => Except.error "AttributeError: tuple object has no attribute split"
  | PyVal.str dst => do
    let date : List Char := stripTarAll ((splitOnCharList '/' dst.data).getLastD [])
    let dashParts := splitOnCharList '-' date
    let _y ← pyInt ⟨dashParts.getD 0 []⟩
    let _m ← pyInt ⟨dashParts.getD 1 []⟩
    let d ← pyInt ⟨dashParts.getD 2 []⟩
    if ¬ containsSub ('r' :: 'a' :: 'w' :: []) dst.data then
      pure (setIgnored cat dst, false)
    else if d = 1 then
      pure (setIgnored cat dst, false)
    else if ¬ (calculate_day_difference now _y _m d > 90) then
      pure (setIgnored cat dst, false)
    else
      pure (cat, true)

/-- The manifest row `[bucket, path, size, date]` written by `build_csv`. -/
def manifestRow (r : CatRow) : List String :=
  [r.bucket, r.path, toString r.size, r.date]

/-- Python `dst_path[0]` on a string: its first character as a 1-character
string (`build_csv` receives the destination string from
`process_archive` and indexes it). -/
def firstCharStr (s : String) : String := ⟨s.data.take 1⟩

/-- `build_csv` (archivev2.py lines 224-249): select the group rows, write
those with `size > 0` to the manifest; when the manifest is empty run
`UPDATE s3_paths SET ignored = 1 WHERE destination_path = ?` bound to
`dst_path[0]` — the FIRST CHARACTER of the destination string — and
return `None`; otherwise return the manifest. -/
def build_csv (cat : Catalog) (dst : String) :
    Catalog × Option (List (List String)) :=
  let rows := cat.filter (fun r => r.destination_path = dst)
  let manifest := (rows.filter (fun r => 0 < r.size)).map manifestRow
  if manifest.isEmpty then (setIgnored cat (firstCharStr dst), none)
  else (cat, some manifest)

/-- `full_dst_path = f"s3://{bucket}/{dst_path}"` (archivev2.py line 94). -/
def full_dst_path (bucket dst : String) : String :=
  "s3://" ++ bucket ++ "/" ++ dst

/-- `archive_object` (archivev2.py lines 69-144), returning
`(success, archiverInvoked)`.  In dry-run mode: succeed without effect.
Otherwise `head_object(Bucket=bucket, Key=full_dst_path)` probes whether
the key named by the full `s3://` URL exists in the bucket; on a hit the
call succeeds without invoking the archiver, on a 404 the external
`s3tar` process is run and its exit status decides the result. -/
def archive_object (bucket dst : String) (dryRun : Bool) (archiverOk : Bool)
    (store : List String) : Bool × Bool :=
  if dryRun then (true, false)
  else if store.contains (full_dst_path bucket dst) then (true, false)
  else if archiverOk then (true, true) else (false, true)

/-- The batching loop of `delete_object` (archivev2.py lines 160-187):
walk the CSV rows, skip empty rows and rows whose cleaned key is empty,
flush a batch to `delete_objects` whenever it reaches 1000 keys, and
flush the final partial batch.  Returns the list of issued batches. -/
def deleteBatchesGo : List (List String) → List String → List (List String)
  | [], acc => if acc.isEmpty then [] else [acc]
  | row :: rest, acc =>
    if row.isEmpty then deleteBatchesGo rest acc
    else
      let key := clean_string (row.getD 1 "")
      if key = "" then deleteBatchesGo rest acc
      else
        let acc2 := acc ++ [key]
        if 1000 ≤ acc2.length then acc2 :: deleteBatchesGo rest []
        else deleteBatchesGo rest acc2

/-- The batches of `delete_objects` calls issued for a manifest. -/
def delete_object_batches (rows : List (List String)) : List (List String) :=
  deleteBatchesGo rows []

/-- The keys of the manifest that survive the row/key filters. -/
def keptKeys : List (List String) → List String
  | [] => []
  | row :: rest =>
    if row.isEmpty then keptKeys rest
    else if clean_string (row.getD 1 "") = "" then keptKeys rest
    else clean_string (row.getD 1 "") :: keptKeys rest

/-- `delete_object` (archivev2.py lines 147-197), returning
`(success, batches issued)`: dry-run succeeds with no remote call; with
deletion disabled it returns `False`; otherwise it issues the batched
`delete_objects` calls and succeeds. -/
def delete_object (cfg : Config) (rows : List (List String)) :
    Bool × List (List String) :=
  if cfg.dry_run then (true, [])
  else if ¬ cfg.delete then (false, [])
  else (true, delete_object_batches rows)

/-- First-occurrence deduplication, modelling the distinct
`destination_path` values of a `GROUP BY destination_path` query. -/
def distinctAux (seen : List String) : List String → List String
  | [] => []
  | x :: rest =>
    if seen.contains x then distinctAux seen rest
    else x :: distinctAux (x :: seen) rest

/-- `SELECT destination_path FROM s3_paths WHERE (archived = 0 AND
deleted = 0 AND ignored = 0) GROUP BY destination_path` (lines 303-313). -/
def selectArchiveGroups (cat : Catalog) : List String :=
  distinctAux [] (cat.filterMap (fun r =>
    if ¬ r.archived ∧ ¬ r.deleted ∧ ¬ r.ignored then some r.destination_path
    else none))

/-- `SELECT destination_path FROM s3_paths WHERE (archived = 1 AND
deleted = 0 AND ignored = 0) GROUP BY destination_path` (line 271). -/
def selectDeleteGroups (cat : Catalog) : List String :=
  distinctAux [] (cat.filterMap (fun r =>
    if r.archived ∧ ¬ r.deleted ∧ ¬ r.ignored then some r.destination_path
    else none))

/-- The loop body of `process_archive` (archivev2.py lines 315-342) over
the selected destination groups; accumulates the destinations for which
the archiver was invoked. -/
def processArchiveGo (now : Int) (cfg : Config) (store : List String)
    (archOk : String → Bool) :
    List String → Catalog → List String → Except String (Catalog × List String)
  | [], cat, invoked => Except.ok (cat, invoked.reverse)
  | dst :: rest, cat, invoked => do
    let (cat1, ok) ← validate_destination_path now cat (PyVal.str dst)
    if ¬ ok then processArchiveGo now cfg store archOk rest cat1 invoked
    else
      match build_csv cat1 dst with
      | (cat2, none) => processArchiveGo now cfg store archOk rest cat2 invoked
      | (cat2, some _manifest) =>
        let res := archive_object cfg.bucket dst cfg.dry_run (archOk dst) store
        let cat3 :=
          if res.1 ∧ ¬ cfg.dry_run then setArchived cat2 dst else cat2
        processArchiveGo now cfg store archOk rest cat3
          (if res.2 then dst :: invoked else invoked)

/-- `process_archive` (archivev2.py lines 300-342): select the pending
destination groups (respecting `limit`), then drive each through
validation, manifest materialization and the archiver; returns the final
catalog and the destinations for which the archiver ran. -/
def process_archive (now : Int) (cfg : Config) (store : List String)
    (archOk : String → Bool) (cat : Catalog) :
    Except String (Catalog × List String) :=
  let groups := selectArchiveGroups cat
  let groups := if 0 < cfg.limit then groups.take cfg.limit else groups
  processArchiveGo now cfg store archOk groups cat []

/-- The loop body of `process_delete` (archivev2.py lines 275-298).  The
source passes the fetched 1-tuple `dst_path` — not `dst_path[0]` — to
`validate_destination_path`, so the first iteration raises
`AttributeError`; the remainder of the body (which is unreachable) is
modelled on the destination string. -/
def processDeleteGo (now : Int) (cfg : Config) :
    List String → Catalog → Except String Catalog
  | [], cat => Except.ok cat
  | dst :: rest, cat => do
    let (cat1, ok) ← validate_destination_path now cat (PyVal.tup [dst])
    if ¬ ok then processDeleteGo now cfg rest cat1
    else
      match build_csv cat1 dst with
      | (cat2, none) => processDeleteGo now cfg rest cat2
      | (cat2, some manifest) =>
        let res := delete_object cfg manifest
        let cat3 := if res.1 ∧ ¬ cfg.dry_run then setDeleted cat2 dst else cat2
        processDeleteGo now cfg rest cat3

/-- `process_delete` (archivev2.py lines 269-298). -/
def process_delete (now : Int) (cfg : Config) (cat : Catalog) :
    Except String Catalog :=
  processDeleteGo now cfg (selectDeleteGroups cat) cat

/-! ## s3tar.py — the scan-based coordinator -/

/-- `is_valid_path` (s3tar.py lines 56-87): reject when any of year, month,
day is falsy (`not all([...])`, i.e. zero), when `day == 1`, or when
`datetime(year, month, day) > datetime.now() - timedelta(days=90)`
(the partition is within the last 90 days); accept otherwise. -/
def is_valid_path (now : Int) (year month day : Int) : Bool :=
  if year = 0 ∨ month = 0 ∨ day = 0 then false
  else if day = 1 then false
  else if datetimeSec year month day > now - 90 * 86400 then false
  else true

/-- `archive_single_path` (s3tar.py lines 411-476), returning
`(result, archiverInvoked)`: count the objects listed under the source
path (`contents` is the listing response); when fewer than 2 are found,
return `False` without running `s3tar`; otherwise run the external
`s3tar` process, whose exit status is the oracle `archiverOk`. -/
def archive_single_path (contents : List String) (archiverOk : Bool) :
    Bool × Bool :=
  if contents.length < 2 then (false, false)
  else if archiverOk then (true, true) else (false, true)

/-! ## delete.py — standalone bulk delete with checkpoint

The main loop reads the key CSV in chunks of `CHUNK_SIZE` rows (one chunk
per `batch_number`), skips every batch with `batch_number <=
last_completed_batch` from the checkpoint, deletes the keys of a
processed batch (writing one results-ledger entry per key), and then
saves the checkpoint `{"last_completed_batch": batch_number}`.  A run is
modelled as the list of its observable events — per-batch ledger writes
and checkpoint writes — and an interruption as truncating that list. -/

/-- `fix_paths` (delete.py lines 22-24). -/
def fix_paths (paths : List String) : List String :=
  paths.map (fun p => ⟨replace3D p.data⟩)

/-- The slicing loop `[fixed[i:i+1000] for i in range(0, len, 1000)]`
(delete.py lines 130-131), written with an explicit remaining-capacity
counter: `cap` slots remain in the chunk under construction `acc`
(accumulated in reverse). -/
def chunksAux : Nat → List String → List String → List (List String)
  | _, acc, [] => if acc.isEmpty then [] else [acc.reverse]
  | 0, acc, x :: rest => acc.reverse :: chunksAux 999 [x] rest
  | n + 1, acc, x :: rest => chunksAux n (x :: acc) rest

/-- The thread chunks of at most `THREAD_CHUNK_SIZE = 1000` keys, each
handed to one `delete_objects` call. -/
def threadChunks (keys : List String) : List (List String) :=
  chunksAux 1000 [] keys

/-- An observable event of the bulk-delete main loop. -/
inductive DelEvent where
  | del : Nat → List String → DelEvent
  | ckpt : Nat → DelEvent
deriving DecidableEq

/-- The events of one run over `batches`, starting at batch index `i`,
with `last` the `last_completed_batch` loaded from the checkpoint: a
batch with index `≤ last` is skipped with no remote call and no
checkpoint write; a processed batch deletes its keys (recording one
ledger entry per key) and then checkpoints its own index
(`save_checkpoint(batch_number + 1)` stores `batch_number`). -/
def runEvents (last : Int) : Nat → List (List String) → List DelEvent
  | _, [] => []
  | i, b :: rest =>
    if (i : Int) ≤ last then runEvents last (i + 1) rest
    else DelEvent.del i b :: DelEvent.ckpt i :: runEvents last (i + 1) rest

/-- The results-ledger entries (keys) recorded by a list of events, in
order; ledger files are opened in append mode, so entries accumulate. -/
def ledgerOf : List DelEvent → List String
  | [] => []
  | DelEvent.del _ ks :: rest => ks ++ ledgerOf rest
  | DelEvent.ckpt _ :: rest => ledgerOf rest

/-- Walk the events keeping the value of the most recent checkpoint write,
starting from `a`. -/
def ckptFold (a : Int) : List DelEvent → Int
  | [] => a
  | DelEvent.ckpt i :: rest => ckptFold (i : Int) rest
  | DelEvent.del _ _ :: rest => ckptFold a rest

/-- `load_checkpoint` after a list of events: the checkpoint file is
overwritten on each write, so the loaded value is the last one written,
`-1` when none was. -/
def lastCkpt (events : List DelEvent) : Int := ckptFold (-1) events

/-- A fresh run over `batches` (no checkpoint file: `load_checkpoint`
returns `-1`). -/
def bulkRun (batches : List (List String)) : List DelEvent :=
  runEvents (-1) 0 batches

/-- The events the restarted run emits after the first run was
interrupted once `n` events had happened. -/
def resumeEvents (batches : List (List String)) (n : Nat) : List DelEvent :=
  runEvents (lastCkpt ((bulkRun batches).take n)) 0 batches

/-- The combined results ledger after an interruption at event `n` and a
restarted run to completion: ledger files persist across the restart
(append mode), so the entries concatenate. -/
def finalLedger (batches : List (List String)) (n : Nat) : List String :=
  ledgerOf ((bulkRun batches).take n) ++ ledgerOf (resumeEvents batches n)

/-! ## Theorems

Helper lemmas first, then one theorem per claim (with its witness or
counterexample where required). -/

/-! ### Normalization: `%3D` rewriting and its interaction with the
date-pattern search -/

theorem replace3D_cons (c : Char) (t : List Char) (hc : c ≠ '%') :
    replace3D (c :: t) = c :: replace3D t := by
  match t with
  | [] => rfl
  | [d] => rfl
  | d :: e :: r =>
    rw [replace3D, if_neg]
    intro h
    exact hc h.1

theorem replace3D_cons_cases (c : Char) (t : List Char) :
    (replace3D (c :: t) = c :: replace3D t ∧ ¬(c = '%' ∧ t.take 2 = ['3', 'D']))
    ∨ (c = '%' ∧ ∃ r, t = '3' :: 'D' :: r ∧ replace3D (c :: t) = '=' :: replace3D r) := by
  match t with
  | [] => exact Or.inl ⟨rfl, by simp⟩
  | [d] => exact Or.inl ⟨rfl, by simp⟩
  | d :: e :: r =>
    by_cases h : c = '%' ∧ d = '3' ∧ e = 'D'
    · refine Or.inr ⟨h.1, r, ?_, ?_⟩
      · rw [h.2.1, h.2.2]
      · rw [replace3D, if_pos h]
    · refine Or.inl ⟨?_, ?_⟩
      · rw [replace3D, if_neg h]
      · simp only [List.take, List.cons.injEq]
        intro hh
        exact h ⟨hh.1, hh.2.1, hh.2.2.1⟩

theorem replace3D_head (x : Char) (xs : List Char) (b : Char) (s : List Char)
    (h : replace3D (x :: xs) = b :: s) : b = x ∨ b = '=' := by
  rcases replace3D_cons_cases x xs with ⟨he, _⟩ | ⟨_, r, _, he⟩
  · rw [he] at h
    exact Or.inl (List.cons.injEq .. ▸ h).1.symm
  · rw [he] at h
    exact Or.inr (List.cons.injEq .. ▸ h).1.symm

theorem hasPat_cons (x : Char) (xs : List Char) (hx : x ≠ '%') :
    hasPat (x :: xs) = hasPat xs := by
  match xs with
  | [] => rfl
  | [a] => rfl
  | a :: b :: r =>
    rw [hasPat]
    simp [hx]

theorem noPat_replace3D (l : List Char) : hasPat (replace3D l) = false := by
  induction l using replace3D.induct with
  | case1 => rfl
  | case2 c => rfl
  | case3 c d => rfl
  | case4 c d e rest h ih =>
    rw [replace3D, if_pos h, hasPat_cons _ _ (by decide)]
    exact ih
  | case5 c d e rest h ih =>
    rw [replace3D, if_neg h]
    by_cases hc : c = '%'
    · -- c is '%' but the next two output chars cannot be "3D"
      subst hc
      have hde : ¬(d = '3' ∧ e = 'D') := fun hh => h ⟨rfl, hh.1, hh.2⟩
      rcases hu : replace3D (d :: e :: rest) with _ | ⟨w0, ws⟩
      · simp [hasPat]
      · rcases ws with _ | ⟨w1, ws'⟩
        · simp [hasPat]
        · rw [hasPat]
          rw [hu] at ih
          simp only [ih, Bool.or_false]
          simp only [decide_eq_false_iff_not]
          intro hh
          -- hh : '%' = '%' ∧ w0 = '3' ∧ w1 = 'D'
          rcases replace3D_cons_cases d (e :: rest) with ⟨he, hne⟩ | ⟨hd, r, hr, he⟩
          · rw [he] at hu
            have hw0 : w0 = d := ((List.cons.injEq .. ▸ hu).1).symm
            by_cases hd3 : d = '3'
            · have hed : e ≠ 'D' := fun hD => hde ⟨hd3, hD⟩
              -- w1 is the head of replace3D (e :: rest)
              have htail : replace3D (e :: rest) = w1 :: ws' := (List.cons.injEq .. ▸ hu).2
              rcases replace3D_head e rest w1 ws' htail with h1 | h1
              · exact hed (h1 ▸ hh.2.2)
              · rw [h1] at hh
                exact absurd hh.2.2 (by decide)
            · exact hd3 (hw0 ▸ hh.2.1)
          · rw [he] at hu
            have hw0 : w0 = '=' := ((List.cons.injEq .. ▸ hu).1).symm
            rw [hw0] at hh
            exact absurd hh.2.1 (by decide)
    · rw [hasPat_cons _ _ hc]
      exact ih

theorem replace3D_of_noPat (l : List Char) (h : hasPat l = false) : replace3D l = l := by
  induction l using replace3D.induct with
  | case1 => rfl
  | case2 c => rfl
  | case3 c d => rfl
  | case4 c d e rest hp ih =>
    exfalso
    rw [hasPat] at h
    simp [hp] at h
  | case5 c d e rest hp ih =>
    rw [replace3D, if_neg hp]
    rw [hasPat] at h
    simp only [Bool.or_eq_false_iff] at h
    rw [ih h.2]

theorem replace3D_idem (l : List Char) : replace3D (replace3D l) = replace3D l :=
  replace3D_of_noPat _ (noPat_replace3D l)

theorem stripLit_some_iff (p : List Char) : ∀ l r,
    stripLit p l = some r ↔ l = p ++ r := by
  induction p with
  | nil =>
    intro l r
    simp [stripLit, eq_comm]
  | cons x ps ih =>
    intro l r
    match l with
    | [] => simp [stripLit]
    | c :: t =>
      rw [stripLit]
      by_cases hx : x = c
      · subst hx
        simp only [if_pos rfl, List.cons_append, List.cons.injEq, true_and]
        exact ih t r
      · rw [if_neg hx]
        simp only [List.cons_append, List.cons.injEq]
        constructor
        · intro hh
          cases hh
        · intro hh
          exact absurd hh.1.symm hx

theorem stripLit_map (p : List Char) (hp : ∀ x ∈ p, x ≠ '%' ∧ x ≠ '=') :
    ∀ l, stripLit p (replace3D l) = (stripLit p l).map replace3D := by
  induction p with
  | nil => intro l; rfl
  | cons x ps ih =>
    intro l
    have hx := hp x (List.mem_cons_self x ps)
    have hps : ∀ y ∈ ps, y ≠ '%' ∧ y ≠ '=' := fun y hy => hp y (List.mem_cons_of_mem x hy)
    match l with
    | [] => rfl
    | c :: t =>
      rcases replace3D_cons_cases c t with ⟨he, _⟩ | ⟨hc, r, hr, he⟩
      · rw [he]
        simp only [stripLit]
        by_cases hxc : x = c
        · rw [if_pos hxc, if_pos hxc]
          exact ih hps t
        · rw [if_neg hxc, if_neg hxc]
          rfl
      · rw [he]
        simp only [stripLit]
        rw [if_neg hx.2, if_neg (fun hcl : x = c => hx.1 (hcl.trans hc))]
        rfl

theorem stripSep_map (l : List Char) :
    stripSep (replace3D l) = (stripSep l).map replace3D := by
  cases h1 : stripLit ('%' :: '3' :: 'D' :: []) l with
  | some r =>
    have hl : l = '%' :: '3' :: 'D' :: r := by
      have := (stripLit_some_iff ('%' :: '3' :: 'D' :: []) l r).mp h1
      simpa using this
    subst hl
    have hrep : replace3D ('%' :: '3' :: 'D' :: r) = '=' :: replace3D r := by
      rw [replace3D, if_pos ⟨rfl, rfl, rfl⟩]
    simp only [stripSep, hrep, h1]
    simp [stripLit]
  | none =>
    cases h2 : stripLit ('=' :: []) l with
    | some r =>
      have hl : l = '=' :: r := by
        have := (stripLit_some_iff ('=' :: []) l r).mp h2
        simpa using this
      subst hl
      have hrep : replace3D ('=' :: r) = '=' :: replace3D r :=
        replace3D_cons _ _ (by decide)
      simp only [stripSep, hrep, h1, h2]
      simp [stripLit]
    | none =>
      have hA : stripLit ('%' :: '3' :: 'D' :: []) (replace3D l) = none := by
        cases hs : stripLit ('%' :: '3' :: 'D' :: []) (replace3D l) with
        | none => rfl
        | some s =>
          exfalso
          have hrl : replace3D l = '%' :: '3' :: 'D' :: s := by
            have := (stripLit_some_iff ('%' :: '3' :: 'D' :: []) (replace3D l) s).mp hs
            simpa using this
          have hnp := noPat_replace3D l
          rw [hrl] at hnp
          rw [hasPat] at hnp
          simp at hnp
      have hB : stripLit ('=' :: []) (replace3D l) = none := by
        cases hs : stripLit ('=' :: []) (replace3D l) with
        | none => rfl
        | some s =>
          exfalso
          have hrl : replace3D l = '=' :: s := by
            have := (stripLit_some_iff ('=' :: []) (replace3D l) s).mp hs
            simpa using this
          match l, hrl with
          | c :: t, hrl =>
            rcases replace3D_cons_cases c t with ⟨he, _⟩ | ⟨hc, r, hr, he⟩
            · rw [he] at hrl
              injection hrl with hce htl
              subst hce
              have hsl : stripLit ('=' :: []) ('=' :: t) = some t := by
                simp [stripLit]
              rw [hsl] at h2
              cases h2
            · subst hc
              subst hr
              have hsl : stripLit ('%' :: '3' :: 'D' :: []) ('%' :: '3' :: 'D' :: r) =
                  some r := by
                simp [stripLit]
              rw [hsl] at h1
              cases h1
      simp only [stripSep, h1, h2, hA, hB]
      rfl

theorem takeDigits_map (l : List Char) :
    takeDigits (replace3D l) = ((takeDigits l).1, replace3D (takeDigits l).2) := by
  have hEq : ('=' : Char).isDigit = false := by decide
  have hPc : ('%' : Char).isDigit = false := by decide
  induction l using replace3D.induct with
  | case1 => rfl
  | case2 c =>
    by_cases h : c.isDigit <;> simp [replace3D, takeDigits, h]
  | case3 c d =>
    by_cases h1 : c.isDigit <;> by_cases h2 : d.isDigit <;>
      simp [replace3D, takeDigits, h1, h2]
  | case4 c d e rest h ih =>
    obtain ⟨hc, hd, he⟩ := h
    subst hc
    subst hd
    subst he
    have hrep : replace3D ('%' :: '3' :: 'D' :: rest) = '=' :: replace3D rest := by
      rw [replace3D, if_pos ⟨rfl, rfl, rfl⟩]
    rw [hrep]
    simp [takeDigits, hEq, hPc, hrep]
  | case5 c d e rest h ih =>
    have hrep : replace3D (c :: d :: e :: rest) = c :: replace3D (d :: e :: rest) := by
      rw [replace3D, if_neg h]
    rw [hrep]
    by_cases hc : c.isDigit
    · simp only [takeDigits, if_pos hc, ih]
    · simp only [takeDigits, if_neg hc]
      rw [hrep]

theorem digitsGroup_map (l : List Char) :
    digitsGroup (replace3D l) =
      (digitsGroup l).map (fun pr => (pr.1, replace3D pr.2)) := by
  rw [digitsGroup, digitsGroup, takeDigits_map]
  by_cases h : (takeDigits l).1.isEmpty
  · simp [h]
  · simp [h]

theorem matchDateAt_map (l : List Char) :
    matchDateAt (replace3D l) = matchDateAt l := by
  rw [matchDateAt, matchDateAt]
  rw [stripLit_map ('y' :: 'e' :: 'a' :: 'r' :: []) (by decide) l]
  cases h1 : stripLit ('y' :: 'e' :: 'a' :: 'r' :: []) l with
  | none => rfl
  | some l1 =>
    simp only [Option.map_some', Option.bind_eq_bind, Option.some_bind]
    rw [stripSep_map l1]
    cases h2 : stripSep l1 with
    | none => rfl
    | some l2 =>
      simp only [Option.map_some', Option.bind_eq_bind, Option.some_bind]
      rw [digitsGroup_map l2]
      cases h3 : digitsGroup l2 with
      | none => rfl
      | some pr3 =>
        obtain ⟨ys, l3⟩ := pr3
        simp only [Option.map_some', Option.bind_eq_bind, Option.some_bind]
        rw [stripLit_map ('/' :: 'm' :: 'o' :: 'n' :: 't' :: 'h' :: []) (by decide) l3]
        cases h4 : stripLit ('/' :: 'm' :: 'o' :: 'n' :: 't' :: 'h' :: []) l3 with
        | none => rfl
        | some l4 =>
          simp only [Option.map_some', Option.bind_eq_bind, Option.some_bind]
          rw [stripSep_map l4]
          cases h5 : stripSep l4 with
          | none => rfl
          | some l5 =>
            simp only [Option.map_some', Option.bind_eq_bind, Option.some_bind]
            rw [digitsGroup_map l5]
            cases h6 : digitsGroup l5 with
            | none => rfl
            | some pr6 =>
              obtain ⟨ms, l6⟩ := pr6
              simp only [Option.map_some', Option.bind_eq_bind, Option.some_bind]
              rw [stripLit_map ('/' :: 'd' :: 'a' :: 'y' :: []) (by decide) l6]
              cases h7 : stripLit ('/' :: 'd' :: 'a' :: 'y' :: []) l6 with
              | none => rfl
              | some l7 =>
                simp only [Option.map_some', Option.bind_eq_bind, Option.some_bind]
                rw [stripSep_map l7]
                cases h8 : stripSep l7 with
                | none => rfl
                | some l8 =>
                  simp only [Option.map_some', Option.bind_eq_bind, Option.some_bind]
                  rw [digitsGroup_map l8]
                  cases h9 : digitsGroup l8 with
                  | none => rfl
                  | some pr9 => rfl

theorem matchDateAt_head_fail (c : Char) (t : List Char) (hc : c ≠ 'y') :
    matchDateAt (c :: t) = none := by
  rw [matchDateAt]
  have hsl : stripLit ('y' :: 'e' :: 'a' :: 'r' :: []) (c :: t) = none := by
    rw [stripLit, if_neg (fun hh : 'y' = c => hc hh.symm)]
  rw [hsl]
  rfl

theorem findDate_map (l : List Char) : findDate (replace3D l) = findDate l := by
  induction l using replace3D.induct with
  | case1 => rfl
  | case2 c => rfl
  | case3 c d => rfl
  | case4 c d e rest h ih =>
    obtain ⟨hc, hd, he⟩ := h
    subst hc
    subst hd
    subst he
    have hrep : replace3D ('%' :: '3' :: 'D' :: rest) = '=' :: replace3D rest := by
      rw [replace3D, if_pos ⟨rfl, rfl, rfl⟩]
    rw [hrep]
    rw [findDate, matchDateAt_head_fail _ _ (by decide)]
    rw [findDate, matchDateAt_head_fail _ _ (by decide)]
    rw [findDate, matchDateAt_head_fail _ _ (by decide)]
    rw [findDate, matchDateAt_head_fail _ _ (by decide)]
    exact ih
  | case5 c d e rest h ih =>
    have hrep : replace3D (c :: d :: e :: rest) = c :: replace3D (d :: e :: rest) := by
      rw [replace3D, if_neg h]
    rw [hrep]
    rw [findDate]
    conv_rhs => rw [findDate]
    rw [← hrep, matchDateAt_map (c :: d :: e :: rest)]
    cases hm : matchDateAt (c :: d :: e :: rest) with
    | some r => rfl
    | none =>
      simp only []
      exact ih

/-! ### Importer: insert-or-ignore and idempotence -/

theorem insertHandled_eq (cat : Catalog) (r : InputRow) :
    insertHandled cat r = Except.ok (insertPure cat r) := by
  rw [insertHandled, tryInsert, insertPure]
  by_cases h : cat.any (fun q => q.path = (rowToCatRow r).path)
  · rw [if_pos h, if_pos h]
  · rw [if_neg h, if_neg h]

theorem process_s3_csv_eq_pure (rows : List InputRow) (cat : Catalog) :
    process_s3_csv rows cat = Except.ok (rows.foldl insertPure cat) := by
  induction rows generalizing cat with
  | nil => rfl
  | cons r rest ih =>
    simp only [process_s3_csv] at ih ⊢
    rw [List.foldlM_cons, insertHandled_eq, List.foldl_cons]
    simpa using ih (insertPure cat r)

theorem insertPure_has_own_path (cat : Catalog) (r : InputRow) :
    (insertPure cat r).any (fun q => q.path = (rowToCatRow r).path) = true := by
  rw [insertPure]
  by_cases h : cat.any (fun q => q.path = (rowToCatRow r).path)
  · rw [if_pos h]
    exact h
  · rw [if_neg h]
    simp

theorem insertPure_mono (cat : Catalog) (r : InputRow) (p : String)
    (h : cat.any (fun q => q.path = p) = true) :
    (insertPure cat r).any (fun q => q.path = p) = true := by
  rw [insertPure]
  by_cases hd : cat.any (fun q => q.path = (rowToCatRow r).path)
  · rw [if_pos hd]
    exact h
  · rw [if_neg hd]
    simp only [List.any_append, Bool.or_eq_true]
    exact Or.inl h

theorem insertPure_skip (cat : Catalog) (r : InputRow)
    (h : cat.any (fun q => q.path = (rowToCatRow r).path) = true) :
    insertPure cat r = cat := by
  rw [insertPure, if_pos h]

theorem foldl_insertPure_mono (rows : List InputRow) (cat : Catalog) (p : String)
    (h : cat.any (fun q => q.path = p) = true) :
    (rows.foldl insertPure cat).any (fun q => q.path = p) = true := by
  induction rows generalizing cat with
  | nil => exact h
  | cons r rest ih =>
    rw [List.foldl_cons]
    exact ih (insertPure cat r) (insertPure_mono cat r p h)

theorem foldl_insertPure_has_all (rows : List InputRow) (cat : Catalog) :
    ∀ r ∈ rows,
      (rows.foldl insertPure cat).any (fun q => q.path = (rowToCatRow r).path) = true := by
  induction rows generalizing cat with
  | nil =>
    intro r hr
    cases hr
  | cons x rest ih =>
    intro r hr
    rw [List.foldl_cons]
    rcases List.mem_cons.mp hr with hx | hmem
    · subst hx
      exact foldl_insertPure_mono rest (insertPure cat r) _
        (insertPure_has_own_path cat r)
    · exact ih (insertPure cat x) r hmem

theorem foldl_insertPure_fixed (rows : List InputRow) (cat : Catalog)
    (h : ∀ r ∈ rows, cat.any (fun q => q.path = (rowToCatRow r).path) = true) :
    rows.foldl insertPure cat = cat := by
  induction rows with
  | nil => rfl
  | cons x rest ih =>
    rw [List.foldl_cons, insertPure_skip cat x (h x (List.mem_cons_self x rest))]
    exact ih (fun r hr => h r (List.mem_cons_of_mem x hr))

/-! ### Delete batching bounds -/

theorem deleteBatchesGo_spec (rows : List (List String)) :
    ∀ acc, acc.length < 1000 →
      (∀ b ∈ deleteBatchesGo rows acc, b.length ≤ 1000) ∧
      (deleteBatchesGo rows acc).flatten = acc ++ keptKeys rows := by
  induction rows with
  | nil =>
    intro acc hacc
    constructor
    · intro b hb
      rw [deleteBatchesGo] at hb
      by_cases h : acc.isEmpty
      · rw [if_pos h] at hb
        cases hb
      · rw [if_neg h] at hb
        rcases List.mem_singleton.mp hb with rfl
        omega
    · rw [deleteBatchesGo]
      by_cases h : acc.isEmpty
      · rw [if_pos h]
        rw [List.isEmpty_iff] at h
        simp [h, keptKeys]
      · rw [if_neg h]
        simp [keptKeys]
  | cons row rest ih =>
    intro acc hacc
    rw [deleteBatchesGo, keptKeys]
    by_cases h1 : row.isEmpty
    · rw [if_pos h1, if_pos h1]
      exact ih acc hacc
    · rw [if_neg h1, if_neg h1]
      by_cases h2 : clean_string (row.getD 1 "") = ""
      · rw [if_pos h2, if_pos h2]
        exact ih acc hacc
      · rw [if_neg h2, if_neg h2]
        by_cases h3 : 1000 ≤ (acc ++ [clean_string (row.getD 1 "")]).length
        · rw [if_pos h3]
          have hlen : (acc ++ [clean_string (row.getD 1 "")]).length = acc.length + 1 := by
            simp
          have hrec := ih [] (by simp)
          constructor
          · intro b hb
            rcases List.mem_cons.mp hb with rfl | hb2
            · omega
            · exact hrec.1 b hb2
          · rw [List.flatten_cons, hrec.2]
            simp
        · rw [if_neg h3]
          have hlen : (acc ++ [clean_string (row.getD 1 "")]).length = acc.length + 1 := by
            simp
          have hrec := ih (acc ++ [clean_string (row.getD 1 "")]) (by omega)
          constructor
          · exact hrec.1
          · rw [hrec.2]
            simp

theorem chunksAux_spec (keys : List String) :
    ∀ cap acc, acc.length + cap = 1000 →
      (∀ c ∈ chunksAux cap acc keys, c.length ≤ 1000) ∧
      (chunksAux cap acc keys).flatten = acc.reverse ++ keys := by
  induction keys with
  | nil =>
    intro cap acc hinv
    rw [chunksAux]
    by_cases h : acc.isEmpty
    · rw [if_pos h]
      rw [List.isEmpty_iff] at h
      simp [h]
    · rw [if_neg h]
      constructor
      · intro c hc
        rcases List.mem_singleton.mp hc with rfl
        rw [List.length_reverse]
        omega
      · simp
  | cons x rest ih =>
    intro cap acc hinv
    match cap, hinv with
    | 0, hinv =>
      rw [chunksAux]
      have hrec := ih 999 [x] (by simp)
      constructor
      · intro c hc
        rcases List.mem_cons.mp hc with rfl | hc2
        · rw [List.length_reverse]
          omega
        · exact hrec.1 c hc2
      · rw [List.flatten_cons, hrec.2]
        simp
    | n + 1, hinv =>
      rw [chunksAux]
      have hrec := ih n (x :: acc) (by simp at hinv ⊢; omega)
      constructor
      · exact hrec.1
      · rw [hrec.2]
        simp

/-! ### Bulk delete: checkpointed runs and the results ledger -/

theorem ledgerOf_runEvents (bs : List (List String)) : ∀ (i : Nat) (last : Int),
    ledgerOf (runEvents last i bs) = (bs.drop (last + 1 - i).toNat).flatten := by
  induction bs with
  | nil =>
    intro i last
    simp [runEvents, ledgerOf]
  | cons b rest ih =>
    intro i last
    rw [runEvents]
    by_cases h : (i : Int) ≤ last
    · rw [if_pos h, ih (i + 1) last]
      have hshift : (last + 1 - (i : Int)).toNat = (last + 1 - ((i : Nat) + 1 : Nat)).toNat + 1 := by
        push_cast
        omega
      rw [hshift, List.drop_succ_cons]
    · rw [if_neg h, ledgerOf, ledgerOf, ih (i + 1) last]
      have h0 : (last + 1 - (i : Int)).toNat = 0 := by omega
      have h1 : (last + 1 - ((i : Nat) + 1 : Nat)).toNat = 0 := by
        push_cast
        omega
      rw [h0, h1]
      simp

theorem runEvents_del_mem (bs : List (List String)) :
    ∀ (i : Nat) (last : Int) (idx : Nat) (ks : List String),
      DelEvent.del idx ks ∈ runEvents last i bs → last < (idx : Int) := by
  induction bs with
  | nil =>
    intro i last idx ks h
    cases h
  | cons b rest ih =>
    intro i last idx ks h
    rw [runEvents] at h
    by_cases hle : (i : Int) ≤ last
    · rw [if_pos hle] at h
      exact ih (i + 1) last idx ks h
    · rw [if_neg hle] at h
      rcases List.mem_cons.mp h with heq | h2
      · injection heq with h3 h4
        subst h3
        omega
      · rcases List.mem_cons.mp h2 with heq | h3
        · cases heq
        · exact ih (i + 1) last idx ks h3

theorem runEvents_take (bs : List (List String)) : ∀ (i m : Nat),
    (runEvents (-1) i bs).take (2 * m) = runEvents (-1) i (bs.take m) := by
  induction bs with
  | nil =>
    intro i m
    simp [runEvents]
  | cons b rest ih =>
    intro i m
    match m with
    | 0 => simp [runEvents]
    | m + 1 =>
      have hneg : ¬ ((i : Int) ≤ -1) := by omega
      rw [runEvents, if_neg hneg]
      have h2 : 2 * (m + 1) = 2 * m + 1 + 1 := by ring
      rw [h2, List.take_succ_cons, List.take_succ_cons, List.take_succ_cons]
      rw [runEvents, if_neg hneg, ih (i + 1) m]

theorem ckptFold_runEvents (bs : List (List String)) : ∀ (i : Nat) (a : Int),
    ckptFold a (runEvents (-1) i bs) =
      if bs.isEmpty then a else (i : Int) + bs.length - 1 := by
  induction bs with
  | nil =>
    intro i a
    simp [runEvents, ckptFold]
  | cons b rest ih =>
    intro i a
    have hneg : ¬ ((i : Int) ≤ -1) := by omega
    rw [runEvents, if_neg hneg, ckptFold, ckptFold, ih (i + 1) (i : Int)]
    by_cases h : rest.isEmpty
    · rw [if_pos h]
      rw [List.isEmpty_iff] at h
      subst h
      simp
    · rw [if_neg h]
      simp only [List.isEmpty_cons, List.length_cons]
      push_cast
      ring

theorem lastCkptAtBoundary (bs : List (List String)) (m : Nat) (hm : m ≤ bs.length) :
    lastCkpt ((bulkRun bs).take (2 * m)) = (m : Int) - 1 := by
  rw [bulkRun, lastCkpt, runEvents_take bs 0 m, ckptFold_runEvents (bs.take m) 0 (-1)]
  by_cases h : (bs.take m).isEmpty
  · rw [if_pos h]
    rw [List.isEmpty_iff] at h
    have : m = 0 ∨ bs = [] := by
      rcases List.take_eq_nil_iff.mp h with h1 | h1
      · exact Or.inl h1
      · exact Or.inr h1
    rcases this with h1 | h1
    · subst h1
      simp
    · subst h1
      simp at hm
      subst hm
      simp
  · rw [if_neg h]
    have hlen : (bs.take m).length = m := by
      rw [List.length_take]
      omega
    rw [hlen]
    ring

/-! ### Recency arithmetic -/

theorem fdiv_day_split (D t : Int) (h0 : 0 ≤ t) (h1 : t < 86400) :
    (D * 86400 + t).fdiv 86400 = D := by
  rw [Int.fdiv_eq_ediv _ (by norm_num)]
  rw [add_comm, Int.add_mul_ediv_right _ _ (by norm_num : (86400 : Int) ≠ 0)]
  rw [Int.ediv_eq_zero_of_lt h0 h1]
  ring

/-! ### Claim theorems -/

/-- C1: the Delete Stage query selects exactly the destination groups with
`archived = 1, deleted = 0, ignored = 0` (first conjunct), but
`process_delete` then hands `validate_destination_path` the fetched
1-tuple row instead of the destination string, so the run raises
`AttributeError` before any validation, delete, or catalog update: the
delete stage aborts and can never mark `deleted = 1` after a successful
delete as the claim describes. -/
theorem C1_process_delete_tuple_crash :
    selectDeleteGroups
      [⟨"raw/acme/f1", "2024", "3", "2", "raw/acme", "b", true, false,
        "archive/raw/acme/2024-3-2.tar", 5, "d", false⟩] =
      ["archive/raw/acme/2024-3-2.tar"]
    ∧ process_delete (datetimeSec 2030 1 1) ⟨"b", true, false, false, false, 0⟩
        [⟨"raw/acme/f1", "2024", "3", "2", "raw/acme", "b", true, false,
          "archive/raw/acme/2024-3-2.tar", 5, "d", false⟩] =
      Except.error "AttributeError: tuple object has no attribute split" := by
  constructor
  · decide
  · decide

/-- C2: `archive_object` probes `head_object` with the full
`s3://bucket/...` URL as the `Key`; that probe key differs from the
destination key (second conjunct), so even when the destination key is
already present in the bucket the probe misses and the external archiver
is invoked again (second component of the result), contradicting the
claim that the second call returns succeeded via the existence probe with
the archiver invoked at most once across the two calls. -/
theorem C2_probe_misses_existing_destination :
    archive_object "b" "archive/raw/acme/2024-3-2.tar" false true
      ["archive/raw/acme/2024-3-2.tar"] = (true, true)
    ∧ full_dst_path "b" "archive/raw/acme/2024-3-2.tar" ≠
        "archive/raw/acme/2024-3-2.tar" := by
  constructor
  · decide
  · decide

/-- C3: running the Importer a second time over the same input rows is a
no-op: the second `process_s3_csv` pass leaves the catalog of the first
pass unchanged (row count and contents), because every insert whose
normalized path is already cataloged is silently skipped by the
insert-or-ignore handler. -/
theorem C3_import_idempotent (rows : List InputRow) (cat : Catalog) :
    (process_s3_csv rows cat).bind (fun c => process_s3_csv rows c) =
      process_s3_csv rows cat := by
  rw [process_s3_csv_eq_pure rows cat]
  show process_s3_csv rows (rows.foldl insertPure cat) = _
  rw [process_s3_csv_eq_pure]
  rw [foldl_insertPure_fixed rows _ (fun r hr => foldl_insertPure_has_all rows cat r hr)]

/-- C4 counterexample: at an age of exactly 90 days the archivev2
validator rules the partition too recent (its day difference 90 is not
greater than 90), but the s3tar.py variant `is_valid_path` lets the same
partition proceed — so it is false that every implementation variant
agrees with the claimed boundary (too_recent exactly when age ≤ 90). -/
theorem C4_counterexample_ninety_days :
    is_valid_path (datetimeSec 2024 3 2 + 90 * 86400) 2024 3 2 = true
    ∧ calculate_day_difference (datetimeSec 2024 3 2 + 90 * 86400) 2024 3 2 = 90
    ∧ ¬ (calculate_day_difference (datetimeSec 2024 3 2 + 90 * 86400) 2024 3 2 > 90) := by
  refine ⟨by decide, by decide, by decide⟩

/-- C4 (amended): with "now" `t` seconds past the midnight lying `D` days
after the partition date, the archivev2 recency test
`calculate_day_difference > 90` passes a partition exactly when it is at
least 91 days old, while the s3tar.py scan variant `is_valid_path`
passes it already at 90 days — the two variants disagree exactly at age
90, and neither matches the other's boundary. -/
theorem C4_recency_boundary (y m d D t : Int) (hy : y ≠ 0) (hm : m ≠ 0)
    (hd0 : d ≠ 0) (hd1 : d ≠ 1) (ht0 : 0 ≤ t) (ht1 : t < 86400) :
    (calculate_day_difference (datetimeSec y m d + D * 86400 + t) y m d > 90 ↔ 91 ≤ D)
    ∧ (is_valid_path (datetimeSec y m d + D * 86400 + t) y m d = true ↔ 90 ≤ D) := by
  constructor
  · have harg : datetimeSec y m d + D * 86400 + t - datetimeSec y m d =
        D * 86400 + t := by ring
    simp only [calculate_day_difference]
    rw [harg, fdiv_day_split D t ht0 ht1]
    omega
  · simp only [is_valid_path]
    rw [if_neg (by simp [hy, hm, hd0]), if_neg hd1]
    by_cases hP : datetimeSec y m d > datetimeSec y m d + D * 86400 + t - 90 * 86400
    · rw [if_pos hP]
      constructor
      · intro hh
        exact Bool.noConfusion hh
      · intro hh
        omega
    · rw [if_neg hP]
      constructor
      · intro _
        omega
      · intro _
        rfl

/-- C4 witness: the boundary theorem instantiated at partition 2024-03-02
observed exactly 90 days later at midnight. -/
theorem C4_recency_boundary_witness :
    (calculate_day_difference (datetimeSec 2024 3 2 + 90 * 86400 + 0) 2024 3 2 > 90 ↔
        91 ≤ (90 : Int))
    ∧ (is_valid_path (datetimeSec 2024 3 2 + 90 * 86400 + 0) 2024 3 2 = true ↔
        90 ≤ (90 : Int)) :=
  C4_recency_boundary 2024 3 2 90 0 (by decide) (by decide) (by decide) (by decide)
    (by decide) (by decide)

/-- C5: every remote delete call is bounded at 1000 keys, in both modes:
each batch issued by the grouped `delete_object` loop of archivev2.py has
at most 1000 keys and the batches together exhaust exactly the kept
manifest keys; and each thread chunk of the bulk delete.py path has at
most 1000 keys and the chunks together exhaust the key list. -/
theorem C5_batch_bound (rows : List (List String)) (keys : List String) :
    (∀ b ∈ delete_object_batches rows, b.length ≤ 1000)
    ∧ (delete_object_batches rows).flatten = keptKeys rows
    ∧ (∀ c ∈ threadChunks keys, c.length ≤ 1000)
    ∧ (threadChunks keys).flatten = keys := by
  have h1 := deleteBatchesGo_spec rows [] (by simp)
  have h2 := chunksAux_spec keys 1000 [] (by simp)
  refine ⟨?_, ?_, ?_, ?_⟩
  · intro b hb
    exact h1.1 b hb
  · rw [delete_object_batches, h1.2]
    simp
  · intro c hc
    exact h2.1 c hc
  · rw [threadChunks, h2.2]
    simp

/-- C5 witness: the bound applied to a concrete two-row manifest and a
concrete two-key list. -/
theorem C5_batch_bound_witness :
    (["k1", "k2"] : List String).length ≤ 1000
    ∧ (["a", "b"] : List String).length ≤ 1000 :=
  ⟨(C5_batch_bound [["b", "k1"], ["b", "k2"]] ["a", "b"]).1 ["k1", "k2"] (by decide),
   (C5_batch_bound [["b", "k1"], ["b", "k2"]] ["a", "b"]).2.2.1 ["a", "b"] (by decide)⟩

/-- C6: for a destination group whose only member has size 0 the manifest
is empty and the archiver is never invoked (empty invocation list), but
the `ignored` update of `build_csv` binds `dst_path[0]` — the first
character `"a"` of the destination string (third conjunct) — so no row of
the group matches the UPDATE and the catalog comes back completely
unchanged, with the group's `ignored` flag still 0 instead of 1. -/
theorem C6_empty_manifest_group_not_ignored :
    process_archive (datetimeSec 2030 1 1) ⟨"b", false, false, false, true, 0⟩ []
      (fun _ => true)
      [⟨"raw/acme/f1", "2024", "3", "2", "raw/acme", "b", false, false,
        "archive/raw/acme/2024-3-2.tar", 0, "d", false⟩] =
    Except.ok ([⟨"raw/acme/f1", "2024", "3", "2", "raw/acme", "b", false, false,
        "archive/raw/acme/2024-3-2.tar", 0, "d", false⟩], [])
    ∧ firstCharStr "archive/raw/acme/2024-3-2.tar" = "a" := by
  constructor
  · decide
  · decide

/-- C7 counterexample: two batches of one key each; the first run is
interrupted after 3 events, i.e. after the ledger write of batch 1 but
before its checkpoint write.  The restart skips batch 0 (checkpointed)
but reprocesses batch 1, and the combined ledger records key "b" twice
even though the input keys are pairwise distinct — refuting that every
interruption point yields exactly one ledger entry per key. -/
theorem C7_counterexample_duplicate_ledger :
    (finalLedger [["a"], ["b"]] 3).count "b" = 2
    ∧ (List.flatten [["a"], ["b"]]).Nodup := by
  constructor
  · decide
  · decide

/-- C7 (amended): the restarted run skips exactly the batches up to the
checkpointed `last_completed_batch` — it issues no delete event for any
batch index at or below the checkpoint (second conjunct) — and processes
all remaining batches.  When the interruption falls on a batch boundary
(an even event count `2 * m`, i.e. right after a checkpoint write), the
combined ledger is exactly the concatenation of all batch keys, hence
exactly one entry per key when the input keys are distinct; an
interruption between a batch's ledger write and its checkpoint write can
instead duplicate that batch's entries (see the counterexample). -/
theorem C7_resume_ledger (batches : List (List String)) (m : Nat)
    (hm : m ≤ batches.length) :
    finalLedger batches (2 * m) = batches.flatten
    ∧ (∀ idx ks, DelEvent.del idx ks ∈ resumeEvents batches (2 * m) →
        lastCkpt ((bulkRun batches).take (2 * m)) < (idx : Int))
    ∧ (batches.flatten.Nodup →
        ∀ k ∈ batches.flatten, (finalLedger batches (2 * m)).count k = 1) := by
  have hck := lastCkptAtBoundary batches m hm
  have hfinal : finalLedger batches (2 * m) = batches.flatten := by
    rw [finalLedger, resumeEvents, hck, bulkRun, runEvents_take batches 0 m]
    rw [ledgerOf_runEvents (batches.take m) 0 (-1), ledgerOf_runEvents batches 0 ((m : Int) - 1)]
    have e1 : ((-1 : Int) + 1 - ((0 : Nat) : Int)).toNat = 0 := by omega
    have e2 : ((m : Int) - 1 + 1 - ((0 : Nat) : Int)).toNat = m := by omega
    rw [e1, e2, List.drop_zero, ← List.flatten_append, List.take_append_drop]
  refine ⟨hfinal, ?_, ?_⟩
  · intro idx ks h
    exact runEvents_del_mem batches 0 _ idx ks h
  · intro hnd k hk
    rw [hfinal]
    exact List.count_eq_one_of_mem hnd hk

/-- C7 witness: the resume theorem at two concrete batches interrupted
exactly at the boundary after the first checkpoint write. -/
theorem C7_resume_ledger_witness :
    (finalLedger [["a"], ["b"]] (2 * 1)).count "b" = 1 :=
  (C7_resume_ledger [["a"], ["b"]] 1 (by decide)).2.2 (by decide) "b" (by decide)

/-- C8 counterexample: on a path whose origin segment itself contains the
escaped equals sign, classifying the escaped form and the normalized form
yields different origins ( `raw/a%3Db` versus `raw/a=b` ), so classifying
the escaped form does not always yield exactly the same result as
classifying the literal form. -/
theorem C8_counterexample_origin_differs :
    extract_origin "raw/a%3Db/c/year=2024/month=1/day=2/f.txt" = "raw/a%3Db"
    ∧ extract_origin (normalize_path "raw/a%3Db/c/year=2024/month=1/day=2/f.txt") =
        "raw/a=b" := by
  constructor
  · decide
  · decide

/-- C8 (amended): normalization is idempotent — applying it twice equals
applying it once — and extracting the date parts from the normalized path
yields exactly the same result as from the original escaped path; the
origin however may differ when a pre-date segment itself contains the
escaped equals sign, as the counterexample shows. -/
theorem C8_normalize_idem_dates_agree (s : String) :
    normalize_path (normalize_path s) = normalize_path s
    ∧ extract_date_parts (normalize_path s) = extract_date_parts s := by
  constructor
  · show String.mk (replace3D (replace3D s.data)) = String.mk (replace3D s.data)
    rw [replace3D_idem]
  · show (match findDate (replace3D s.data) with
      | some r => r
      | none => ("unknown", "unknown", "unknown")) = extract_date_parts s
    rw [findDate_map]
    rfl

/-- C9: classification is total and degrades to the `unknown` sentinel —
a path with no date segments classifies to unknown date parts and origin,
and its derived destination key is `archive/unknown/unknown-unknown-unknown.tar`
— but `validate_destination_path` then int-parses `unknown` out of that
destination key and raises `ValueError` to the caller instead of routing
the group to an ignored/failed outcome. -/
theorem C9_validate_raises_on_unknown :
    extract_date_parts "data/file.txt" = ("unknown", "unknown", "unknown")
    ∧ extract_origin "data/file.txt" = "unknown"
    ∧ (rowToCatRow ⟨"b", "data/file.txt", 1, "d"⟩).destination_path =
        "archive/unknown/unknown-unknown-unknown.tar"
    ∧ validate_destination_path 0 []
        (PyVal.str "archive/unknown/unknown-unknown-unknown.tar") =
      Except.error "ValueError: invalid literal for int with base 10: unknown" := by
  refine ⟨by decide, by decide, by decide, by decide⟩

/-- C10: when the listing under the source path returns fewer than 2
objects, `archive_single_path` returns `False` without invoking the
external archiver, so a partition containing zero or one object is never
archived by the scan-based coordinator. -/
theorem C10_minimum_membership (contents : List String) (archiverOk : Bool)
    (h : contents.length < 2) :
    archive_single_path contents archiverOk = (false, false) := by
  rw [archive_single_path, if_pos h]

/-- C10 witness: a singleton listing is not archived. -/
theorem C10_minimum_membership_witness :
    archive_single_path ["raw/acme/year=2024/month=3/day=2/only.txt"] true =
      (false, false) :=
  C10_minimum_membership _ _ (by decide)
